import Mathlib

/-!
Verification of the Gangbro storefront's order-lifecycle and pricing logic.

The repository's own code under scrutiny is the React client: the checkout
pricing computation (CheckoutPage), the admin order-status dialog
(AdminOrders), and the payment-proof upload flow (PaymentPage).  Where a
claim is decided by the backend (promo validation, order transitions,
payment-proof attachment, promo redemption), whose code is not in the
sources — only its callers are — the definition is modelled from the
specification text and says so in its doc comment.

Money amounts are modelled as rationals: the client computes with
JavaScript numbers, and every concrete amount in the claims is an exact
decimal, so ℚ is the faithful idealisation.
-/

namespace Gangbro

/-- Order status enumeration, as listed by STATUS_OPTIONS in the admin
orders page (part_003, lines 665-670). -/
inductive Status where
  | pending
  | confirmed
  | completed
  | cancelled
deriving DecidableEq, Repr

/-- The four selectable statuses offered by the admin UI, in source order. -/
def STATUS_OPTIONS : List Status :=
  [Status.pending, Status.confirmed, Status.completed, Status.cancelled]

/-- One cart line item as held by the checkout page: the selected
variation price and the quantity. -/
structure CartItem where
  price : ℚ
  quantity : ℕ
deriving DecidableEq, Repr

/-- Modelled from the spec: `getCartTotal` of the cart context (the Cart
component is not among the sources; the spec states
`subtotal = sum(unit_price * quantity)` over all line items, which is also
how the checkout page renders each line, part_003 line 578). -/
def getCartTotal (cart : List CartItem) : ℚ :=
  (cart.map (fun i => i.price * (i.quantity : ℚ))).sum

/-- The pricing breakdown computed by CheckoutPage (part_003, lines
456-462), field for field. -/
structure Breakdown where
  subtotal : ℚ
  discountAmount : ℚ
  afterDiscount : ℚ
  serviceCharge : ℚ
  taxAmount : ℚ
  total : ℚ
deriving DecidableEq, Repr

/-- CheckoutPage pricing (part_003, lines 456-462):
subtotal from the cart, then `afterDiscount = subtotal - discountAmount`
(no clamping at zero in the source), then
`taxAmount = afterDiscount * (taxPercentage / 100)`, then
`total = afterDiscount + serviceCharge + taxAmount`. -/
def checkoutBreakdown (cart : List CartItem)
    (discountAmount serviceCharge taxPercentage : ℚ) : Breakdown :=
  let subtotal := getCartTotal cart
  let afterDiscount := subtotal - discountAmount
  let taxAmount := afterDiscount * (taxPercentage / 100)
  let total := afterDiscount + serviceCharge + taxAmount
  { subtotal := subtotal
    discountAmount := discountAmount
    afterDiscount := afterDiscount
    serviceCharge := serviceCharge
    taxAmount := taxAmount
    total := total }

/-- Discount type of a promo code: percentage of subtotal, or fixed amount. -/
inductive DiscountType where
  | percentage
  | fixed
deriving DecidableEq, Repr

/-- A promo code rule: the fields the discount computation reads. -/
structure PromoCode where
  code : String
  discountType : DiscountType
  value : ℚ
  maxDiscount : Option ℚ
deriving Repr

/-- Modelled from the spec: the server side of `promoCodesAPI.validate`
is not among the sources (the client only posts the code and subtotal,
part_003 line 468).  Per the spec, for percentage type the discount is
`subtotal * (value / 100)`, capped at the maximum-discount ceiling when
one is configured; for fixed type it is `min(value, subtotal)`. -/
def promoDiscountAmount (p : PromoCode) (subtotal : ℚ) : ℚ :=
  match p.discountType with
  | DiscountType.percentage =>
      let raw := subtotal * (p.value / 100)
      match p.maxDiscount with
      | some cap => min raw cap
      | none => raw
  | DiscountType.fixed => min p.value subtotal

/-- The concrete promo code of the claimed scenario: 10 % with
maximum discount 80. -/
def SAVE10 : PromoCode :=
  { code := ("SAVE10"), discountType := DiscountType.percentage,
    value := 10, maxDiscount := some 80 }

/-- The admin status-update dialog's confirm-button condition (part_003,
line 1058): disabled while an update is in flight or when the chosen new
status equals the order's current status. -/
def confirmDisabled (isUpdating : Bool) (newStatus current : Status) : Bool :=
  isUpdating || decide (newStatus = current)

/-- The dialog issues a status-update request for target t from current
status s exactly when the confirm button is enabled (part_003, lines
1016-1033 offer every STATUS_OPTIONS entry as a target; lines 741-749
post whatever was selected). -/
def uiAllowsTransition (s t : Status) : Bool :=
  !(confirmDisabled false t s)

/-- The transition relation asserted by the claim (the strict graph of
spec section 4.3): pending → confirmed, confirmed → completed,
pending → cancelled, confirmed → cancelled, and nothing else. -/
def specAllowedTransition : Status → Status → Bool
  | Status.pending, Status.confirmed => true
  | Status.confirmed, Status.completed => true
  | Status.pending, Status.cancelled => true
  | Status.confirmed, Status.cancelled => true
  | _, _ => false

/-- One order-status history record, as rendered by the admin orders page
(part_003, lines 974-985: created_at timestamp, old_status, new_status,
optional note). -/
structure HistoryEntry where
  old_status : Status
  new_status : Status
  note : Option String
  timestamp : ℕ
deriving DecidableEq, Repr

/-- The order fields the lifecycle operations touch: current status,
status history, creation time, and the optional payment proof (asset
reference and payment method name). -/
structure Order where
  status : Status
  history : List HistoryEntry
  createdAt : ℕ
  paymentProof : Option (String × String)
deriving DecidableEq, Repr

/-- The error kinds of the order subsystem used by the claims. -/
inductive OrderError where
  | InvalidTransition
  | InvalidState
  | UsageLimitReached
deriving DecidableEq, Repr

/-- Modelled from the spec: the backend handler of
`orderTrackingAPI.updateStatus` is not among the sources (the admin page
only posts the chosen status and note, part_003 lines 746-749).  Per the
spec, a transition fails with InvalidTransition when the target is not
reachable in the strict graph, and on success updates the status and
appends exactly one history entry capturing old and new status, note and
timestamp. -/
def transition (o : Order) (newStatus : Status) (note : Option String)
    (now : ℕ) : Except OrderError Order :=
  if specAllowedTransition o.status newStatus then
    Except.ok { o with
      status := newStatus
      history := o.history ++ [⟨o.status, newStatus, note, now⟩] }
  else Except.error OrderError.InvalidTransition

/-- Modelled from the spec: the backend handler of
`ordersAPI.uploadPaymentScreenshot` is not among the sources (the payment
page only posts the asset URL and method name, ProductCard.jsx line 154).
Per the spec, attaching payment proof is allowed only while the status is
pending, fails with InvalidState otherwise, and records the asset
reference and method name without changing the status. -/
def attachPaymentProof (o : Order) (assetReference paymentMethodName : String) :
    Except OrderError Order :=
  if o.status = Status.pending then
    Except.ok { o with paymentProof := some (assetReference, paymentMethodName) }
  else Except.error OrderError.InvalidState

/-- The chain predicate over a history: read from initial status s and
time t, each entry's old_status equals the running status, timestamps
strictly increase, and the running status becomes the entry's new_status. -/
def histOk : Status → ℕ → List HistoryEntry → Bool
  | _, _, [] => true
  | s, t, e :: rest =>
      decide (e.old_status = s) && decide (t < e.timestamp)
        && histOk e.new_status e.timestamp rest

/-- The status reached after a history, starting from s. -/
def lastStatus (s : Status) : List HistoryEntry → Status
  | [] => s
  | e :: rest => lastStatus e.new_status rest

/-- The time of the latest history entry, or t when there is none. -/
def lastTime (t : ℕ) : List HistoryEntry → ℕ
  | [] => t
  | e :: rest => lastTime e.timestamp rest

/-- A status-update request as posted by the admin dialog: target status,
optional note, and the server timestamp it will carry. -/
structure TransitionRequest where
  target : Status
  note : Option String
  time : ℕ
deriving DecidableEq, Repr

/-- Sequential application of transition requests; a failed transition
leaves the order unchanged. -/
def applyRequests (o : Order) : List TransitionRequest → Order
  | [] => o
  | r :: rest =>
      match transition o r.target r.note r.time with
      | Except.ok o2 => applyRequests o2 rest
      | Except.error _ => applyRequests o rest

/-- The usage state of a promo code: current usage count and optional
usage limit. -/
structure PromoState where
  usage_count : ℕ
  usage_limit : Option ℕ
deriving DecidableEq, Repr

/-- Modelled from the spec: the server side of promo validation is not
among the sources.  Per the spec, validation is a pure check: it reports
UsageLimitReached when a limit exists and the count has reached it, and
never mutates the state (the returned state is the input state). -/
def validateUsage (p : PromoState) : Except OrderError PromoState :=
  match p.usage_limit with
  | some lim =>
      if p.usage_count < lim then Except.ok p
      else Except.error OrderError.UsageLimitReached
  | none => Except.ok p

/-- Modelled from the spec: the order-creation commit that consumes a
promo redemption is not among the sources.  Per the spec, the limit check
and the increment happen atomically inside the committing transaction:
a commit re-checks the limit and increments the count by one, or fails
with UsageLimitReached. -/
def redeemPromo (p : PromoState) : Except OrderError PromoState :=
  match p.usage_limit with
  | some lim =>
      if p.usage_count < lim then
        Except.ok { p with usage_count := p.usage_count + 1 }
      else Except.error OrderError.UsageLimitReached
  | none => Except.ok { p with usage_count := p.usage_count + 1 }

/-- An operation of the order subsystem.  Modelled from the spec: the
backend exposes exactly explicit admin transitions and payment-proof
attachment as order mutations; no operation is triggered by elapsed time
(the 10-minute countdown shown by PaymentPage, ProductCard.jsx line 258,
is a constant literal with no timer logic or cancellation call behind
it). -/
inductive AdminOp where
  | transitionTo (target : Status) (note : Option String) (time : ℕ)
  | attachProof (assetReference paymentMethodName : String)
deriving DecidableEq, Repr

/-- Apply one operation; a failing operation leaves the order unchanged. -/
def applyOp (o : Order) (op : AdminOp) : Order :=
  match op with
  | AdminOp.transitionTo t n tm =>
      match transition o t n tm with
      | Except.ok o2 => o2
      | Except.error _ => o
  | AdminOp.attachProof a m =>
      match attachPaymentProof o a m with
      | Except.ok o2 => o2
      | Except.error _ => o

/-- Apply a sequence of operations in order. -/
def applyOps (o : Order) : List AdminOp → Order
  | [] => o
  | op :: rest => applyOps (applyOp o op) rest

/-- Whether an operation is an explicit status transition. -/
def isTransitionOp : AdminOp → Bool
  | AdminOp.transitionTo _ _ _ => true
  | AdminOp.attachProof _ _ => false

/-- The client-side screenshot size cap (ProductCard.jsx line 125):
10 * 1024 * 1024 bytes. -/
def MAX_SCREENSHOT_BYTES : ℕ := 10 * 1024 * 1024

/-- A selected screenshot file; the size in bytes is the only field the
client logic reads. -/
structure ScreenshotFile where
  size : ℕ
deriving DecidableEq, Repr

/-- handleScreenshotChange (ProductCard.jsx, lines 122-132): when no file
is selected nothing changes; a file over the cap is rejected with an
error toast and the held screenshot is unchanged; otherwise the file is
stored. -/
def handleScreenshotChange (current : Option ScreenshotFile)
    (selected : Option ScreenshotFile) : Option ScreenshotFile :=
  match selected with
  | none => current
  | some f => if f.size > MAX_SCREENSHOT_BYTES then current else some f

/-- The submit button's disabled condition (ProductCard.jsx line 396):
disabled without a screenshot or while submitting. -/
def processOrderDisabled (screenshot : Option ScreenshotFile)
    (isSubmitting : Bool) : Bool :=
  screenshot.isNone || isSubmitting

/-- handleProcessOrder (ProductCard.jsx, lines 139-154): with no
screenshot it rejects and issues no call; otherwise it uploads the file
and sends the returned asset URL to uploadPaymentScreenshot.  The result
is the URL carried by that call, or none when no call is made. -/
def handleProcessOrder (upload : ScreenshotFile → String)
    (screenshot : Option ScreenshotFile) : Option String :=
  match screenshot with
  | none => none
  | some f => some (upload f)

/-- Claim C1: the claim asserts `after_discount = max(subtotal - discount_amount, 0)`,
never negative.  The source computes `afterDiscount = subtotal - discountAmount`
with no clamp: with a single 100-rupee item and a stale discount of 500
(the promo is validated once and the cart can shrink afterwards), the
post-discount amount is -400, which is negative and differs from the
claimed max. -/
theorem claim_C1_counterexample :
    (checkoutBreakdown [⟨100, 1⟩] 500 0 0).afterDiscount = -400 ∧
    (checkoutBreakdown [⟨100, 1⟩] 500 0 0).afterDiscount < 0 ∧
    (checkoutBreakdown [⟨100, 1⟩] 500 0 0).afterDiscount ≠
      max ((checkoutBreakdown [⟨100, 1⟩] 500 0 0).subtotal - 500) 0 := by
  refine ⟨?_, ?_, ?_⟩ <;>
    simp only [checkoutBreakdown, getCartTotal, List.map_cons, List.map_nil,
      List.sum_cons, List.sum_nil] <;> norm_num

/-- Claim C1 (amended): the pricing computation proceeds in the fixed
order of the source: subtotal is the sum of unit_price * quantity; then
`after_discount = subtotal - discount_amount` with NO clamping at zero
(a discount exceeding the subtotal makes it negative); then
`tax_amount = after_discount * (tax_percentage / 100)`; then
`total = after_discount + service_charge + tax_amount`. -/
theorem claim_C1 (cart : List CartItem) (discountAmount serviceCharge taxPercentage : ℚ) :
    (checkoutBreakdown cart discountAmount serviceCharge taxPercentage).subtotal
        = (cart.map (fun i => i.price * (i.quantity : ℚ))).sum ∧
    (checkoutBreakdown cart discountAmount serviceCharge taxPercentage).afterDiscount
        = (checkoutBreakdown cart discountAmount serviceCharge taxPercentage).subtotal
            - discountAmount ∧
    (checkoutBreakdown cart discountAmount serviceCharge taxPercentage).taxAmount
        = (checkoutBreakdown cart discountAmount serviceCharge taxPercentage).afterDiscount
            * (taxPercentage / 100) ∧
    (checkoutBreakdown cart discountAmount serviceCharge taxPercentage).total
        = (checkoutBreakdown cart discountAmount serviceCharge taxPercentage).afterDiscount
            + serviceCharge
            + (checkoutBreakdown cart discountAmount serviceCharge taxPercentage).taxAmount := by
  refine ⟨rfl, rfl, rfl, rfl⟩

/-- Claim C2: the claim asserts that for every non-empty cart with
non-negative prices and positive quantities, `total ≥ service_charge`.
The source does not clamp the discount, so with cart [price 100, qty 1]
(non-empty, price ≥ 0, quantity ≥ 1), a stale discount of 500, service
charge 10 and tax 0, the computed total is -390, strictly below the
service charge of 10. -/
theorem claim_C2_counterexample :
    ([⟨100, 1⟩] : List CartItem) ≠ [] ∧
    (∀ i ∈ ([⟨100, 1⟩] : List CartItem), 0 ≤ i.price ∧ 1 ≤ i.quantity) ∧
    (checkoutBreakdown [⟨100, 1⟩] 500 10 0).total
      < (checkoutBreakdown [⟨100, 1⟩] 500 10 0).serviceCharge := by
  refine ⟨by simp, ?_, ?_⟩
  · intro i hi
    simp only [List.mem_singleton] at hi
    subst hi
    exact ⟨by norm_num, by norm_num⟩
  · simp only [checkoutBreakdown, getCartTotal, List.map_cons, List.map_nil,
      List.sum_cons, List.sum_nil]
    norm_num

/-- Claim C2 (amended): for every non-empty cart with non-negative unit
prices and positive quantities, PROVIDED the discount does not exceed the
subtotal and the tax percentage and service charge are non-negative, the
computed breakdown satisfies
`total = subtotal - discount + service_charge + tax` and
`total ≥ service_charge`.  (The identity holds unconditionally; the lower
bound needs `discount ≤ subtotal`, which the source does not enforce when
the cart shrinks after a promo is applied.) -/
theorem claim_C2 (cart : List CartItem)
    (discountAmount serviceCharge taxPercentage : ℚ)
    (hne : cart ≠ [])
    (hitems : ∀ i ∈ cart, 0 ≤ i.price ∧ 1 ≤ i.quantity)
    (hdisc : discountAmount ≤ getCartTotal cart)
    (htax : 0 ≤ taxPercentage) (hsvc : 0 ≤ serviceCharge) :
    (checkoutBreakdown cart discountAmount serviceCharge taxPercentage).total
        = (checkoutBreakdown cart discountAmount serviceCharge taxPercentage).subtotal
          - discountAmount + serviceCharge
          + (checkoutBreakdown cart discountAmount serviceCharge taxPercentage).taxAmount ∧
    serviceCharge
      ≤ (checkoutBreakdown cart discountAmount serviceCharge taxPercentage).total := by
  constructor
  · simp only [checkoutBreakdown]
  · simp only [checkoutBreakdown]
    have h0 : 0 ≤ getCartTotal cart - discountAmount := by linarith
    have h1 : 0 ≤ (getCartTotal cart - discountAmount) * (taxPercentage / 100) := by
      apply mul_nonneg h0
      positivity
    linarith

/-- Witness for claim C2 at a concrete input: a single 100-rupee item,
discount 50, service charge 10, tax 13 %. -/
theorem claim_C2_witness :
    (checkoutBreakdown [⟨100, 1⟩] 50 10 13).total
        = (checkoutBreakdown [⟨100, 1⟩] 50 10 13).subtotal
          - 50 + 10 + (checkoutBreakdown [⟨100, 1⟩] 50 10 13).taxAmount ∧
    (10 : ℚ) ≤ (checkoutBreakdown [⟨100, 1⟩] 50 10 13).total := by
  refine claim_C2 [⟨100, 1⟩] 50 10 13 (by simp) ?_ ?_ (by norm_num) (by norm_num)
  · intro i hi
    simp only [List.mem_singleton] at hi
    subst hi
    exact ⟨by norm_num, by norm_num⟩
  · simp only [getCartTotal, List.map_cons, List.map_nil, List.sum_cons, List.sum_nil]
    norm_num

/-- Claim C3: a percentage-type code never yields a discount above its
configured cap; a fixed-type code never yields a discount above the
subtotal; and in the concrete scenario (subtotal 1000, 10 % capped at 80,
service charge 0, tax 13 %) the discount is 80, the tax 119.6 and the
total 1039.6. -/
theorem claim_C3 (p : PromoCode) (subtotal : ℚ) :
    (∀ cap, p.discountType = DiscountType.percentage → p.maxDiscount = some cap →
        promoDiscountAmount p subtotal ≤ cap) ∧
    (p.discountType = DiscountType.fixed →
        promoDiscountAmount p subtotal ≤ subtotal) ∧
    (promoDiscountAmount SAVE10 1000 = 80 ∧
      (checkoutBreakdown [⟨1000, 1⟩] (promoDiscountAmount SAVE10 1000) 0 13).taxAmount
        = 119.6 ∧
      (checkoutBreakdown [⟨1000, 1⟩] (promoDiscountAmount SAVE10 1000) 0 13).total
        = 1039.6) := by
  refine ⟨?_, ?_, ?_, ?_, ?_⟩
  · intro cap hty hcap
    simp only [promoDiscountAmount, hty, hcap]
    exact min_le_right _ _
  · intro hty
    simp only [promoDiscountAmount, hty]
    exact min_le_right _ _
  · simp only [promoDiscountAmount, SAVE10]
    norm_num
  · simp only [promoDiscountAmount, SAVE10, checkoutBreakdown, getCartTotal,
      List.map_cons, List.map_nil, List.sum_cons, List.sum_nil]
    norm_num
  · simp only [promoDiscountAmount, SAVE10, checkoutBreakdown, getCartTotal,
      List.map_cons, List.map_nil, List.sum_cons, List.sum_nil]
    norm_num

/-- Witness for claim C3: instantiated at the SAVE10 code and subtotal
1000, discharging both hypothetical branches at concrete inputs (the cap
bound at SAVE10 itself, the subtotal bound at a fixed-type code of
value 30). -/
theorem claim_C3_witness :
    promoDiscountAmount SAVE10 1000 ≤ 80 ∧
    promoDiscountAmount
      { code := ("FLAT30"), discountType := DiscountType.fixed,
        value := 30, maxDiscount := none } 1000 ≤ 1000 ∧
    promoDiscountAmount SAVE10 1000 = 80 := by
  refine ⟨(claim_C3 SAVE10 1000).1 80 rfl rfl, ?_, ((claim_C3 SAVE10 1000).2.2).1⟩
  exact (claim_C3
    { code := ("FLAT30"), discountType := DiscountType.fixed,
      value := 30, maxDiscount := none } 1000).2.1 rfl

/-- Claim C4: the claim asserts that from a terminal status (completed,
cancelled) every transition fails with InvalidTransition.  The admin UI
in the source offers all four statuses as targets regardless of the
current status and enables the confirm button whenever the target differs
from the current status: from completed, the target pending is offered
(it is in STATUS_OPTIONS) and the request is issued, though the claimed
graph forbids it. -/
theorem claim_C4_counterexample :
    Status.pending ∈ STATUS_OPTIONS ∧
    uiAllowsTransition Status.completed Status.pending = true ∧
    specAllowedTransition Status.completed Status.pending = false := by
  refine ⟨?_, rfl, rfl⟩
  simp [STATUS_OPTIONS]

/-- Claim C4 (amended): the admin UI admits a transition from any status
to any status except the current one: every STATUS_OPTIONS entry is a
selectable target, and the request is issued exactly when the target
differs from the current status — including transitions out of completed
and cancelled; no InvalidTransition rejection exists in the source. -/
theorem claim_C4 (s t : Status) :
    uiAllowsTransition s t = !(decide (t = s)) ∧ t ∈ STATUS_OPTIONS := by
  constructor
  · simp [uiAllowsTransition, confirmDisabled]
  · cases t <;> simp [STATUS_OPTIONS]

theorem lastStatus_append (s : Status) (h : List HistoryEntry) (e : HistoryEntry) :
    lastStatus s (h ++ [e]) = e.new_status := by
  induction h generalizing s with
  | nil => rfl
  | cons x xs ih => simpa [lastStatus] using ih x.new_status

theorem lastTime_append (t : ℕ) (h : List HistoryEntry) (e : HistoryEntry) :
    lastTime t (h ++ [e]) = e.timestamp := by
  induction h generalizing t with
  | nil => rfl
  | cons x xs ih => simpa [lastTime] using ih x.timestamp

theorem histOk_append (s : Status) (t : ℕ) (h : List HistoryEntry) (e : HistoryEntry)
    (hok : histOk s t h = true) (hold : e.old_status = lastStatus s h)
    (htime : lastTime t h < e.timestamp) :
    histOk s t (h ++ [e]) = true := by
  induction h generalizing s t with
  | nil =>
      simp only [lastStatus] at hold
      simp only [lastTime] at htime
      simp [histOk, hold, htime]
  | cons x xs ih =>
      simp only [histOk, Bool.and_eq_true, decide_eq_true_eq] at hok
      obtain ⟨⟨h1, h2⟩, h3⟩ := hok
      simp only [lastStatus] at hold
      simp only [lastTime] at htime
      simp only [List.cons_append, histOk, Bool.and_eq_true, decide_eq_true_eq]
      exact ⟨⟨h1, h2⟩, ih x.new_status x.timestamp h3 hold htime⟩

theorem chain_lt_restart {a b : ℕ} {l : List ℕ} (hab : a < b)
    (h : List.Chain (· < ·) b l) : List.Chain (· < ·) a l := by
  cases h with
  | nil => exact List.Chain.nil
  | cons hbc hrest => exact List.Chain.cons (lt_trans hab hbc) hrest

/-- The trace invariant: applying any sequence of requests whose
timestamps strictly increase from the latest recorded time preserves the
history-chain predicate, keeps the status equal to the last recorded new
status, and only ever appends to the history. -/
theorem applyRequests_inv (reqs : List TransitionRequest) (o : Order)
    (hh : histOk Status.pending o.createdAt o.history = true)
    (hs : o.status = lastStatus Status.pending o.history)
    (ht : List.Chain (· < ·) (lastTime o.createdAt o.history)
            (reqs.map TransitionRequest.time)) :
    histOk Status.pending (applyRequests o reqs).createdAt
        (applyRequests o reqs).history = true ∧
    (applyRequests o reqs).status
        = lastStatus Status.pending (applyRequests o reqs).history ∧
    (applyRequests o reqs).createdAt = o.createdAt ∧
    ∃ l, (applyRequests o reqs).history = o.history ++ l := by
  induction reqs generalizing o with
  | nil => exact ⟨hh, hs, rfl, [], by simp [applyRequests]⟩
  | cons r rest ih =>
      simp only [List.map_cons] at ht
      cases ht with
      | cons hlt hchain =>
        simp only [applyRequests, transition]
        by_cases hallow : specAllowedTransition o.status r.target = true
        · simp only [hallow, if_true]
          set e : HistoryEntry := ⟨o.status, r.target, r.note, r.time⟩ with he
          set o2 : Order := { o with status := r.target, history := o.history ++ [e] }
            with ho2
          have hh2 : histOk Status.pending o2.createdAt o2.history = true := by
            simp only [ho2]
            exact histOk_append _ _ _ _ hh (by simp [he, hs]) hlt
          have hs2 : o2.status = lastStatus Status.pending o2.history := by
            simp only [ho2]
            simp [lastStatus_append, he]
          have ht2 : List.Chain (· < ·) (lastTime o2.createdAt o2.history)
              (rest.map TransitionRequest.time) := by
            simp only [ho2]
            simpa [lastTime_append, he] using hchain
          obtain ⟨a, b, c, l2, hl2⟩ := ih o2 hh2 hs2 ht2
          refine ⟨a, b, by simpa [ho2] using c, [e] ++ l2, ?_⟩
          simpa [ho2, List.append_assoc] using hl2
        · simp only [Bool.not_eq_true] at hallow
          simp only [hallow, Bool.false_eq_true, if_false]
          exact ih o hh hs (chain_lt_restart hlt hchain)

/-- Claim C5: every successful transition appends exactly one history
entry whose old_status is the order's status immediately prior to the
call; and for any fresh pending order and any request sequence with
strictly increasing timestamps, the resulting history is append-only and
satisfies the chain predicate (each entry's old status equals the
preceding entry's new status, the first equals pending, and timestamps
strictly increase). -/
theorem claim_C5 :
    (∀ (o : Order) (ns : Status) (nt : Option String) (now : ℕ) (o2 : Order),
        transition o ns nt now = Except.ok o2 →
        o2.history = o.history ++ [⟨o.status, ns, nt, now⟩] ∧ o2.status = ns) ∧
    (∀ (o : Order) (reqs : List TransitionRequest),
        o.status = Status.pending → o.history = [] →
        List.Chain (· < ·) o.createdAt (reqs.map TransitionRequest.time) →
        histOk Status.pending o.createdAt (applyRequests o reqs).history = true ∧
        ∃ l, (applyRequests o reqs).history = o.history ++ l) := by
  constructor
  · intro o ns nt now o2 hok
    simp only [transition] at hok
    by_cases hallow : specAllowedTransition o.status ns = true
    · simp only [hallow, if_true, Except.ok.injEq] at hok
      subst hok
      exact ⟨rfl, rfl⟩
    · simp only [Bool.not_eq_true] at hallow
      simp [hallow] at hok
  · intro o reqs hst hhist hchain
    have hh : histOk Status.pending o.createdAt o.history = true := by
      simp [hhist, histOk]
    have hs : o.status = lastStatus Status.pending o.history := by
      simp [hhist, lastStatus, hst]
    have ht : List.Chain (· < ·) (lastTime o.createdAt o.history)
        (reqs.map TransitionRequest.time) := by
      simpa [hhist, lastTime] using hchain
    obtain ⟨a, _, hc, l, hl⟩ := applyRequests_inv reqs o hh hs ht
    exact ⟨by simpa [hc] using a, l, hl⟩

/-- Witness for claim C5: a fresh pending order created at time 0,
transitioned to confirmed at time 1 and to completed at time 2. -/
theorem claim_C5_witness :
    ((⟨Status.confirmed, [⟨Status.pending, Status.confirmed, none, 1⟩], 0, none⟩
            : Order).history
        = (⟨Status.pending, [], 0, none⟩ : Order).history
            ++ [⟨Status.pending, Status.confirmed, none, 1⟩] ∧
      (⟨Status.confirmed, [⟨Status.pending, Status.confirmed, none, 1⟩], 0, none⟩
            : Order).status = Status.confirmed) ∧
    (histOk Status.pending 0
        (applyRequests ⟨Status.pending, [], 0, none⟩
          [⟨Status.confirmed, none, 1⟩, ⟨Status.completed, none, 2⟩]).history = true ∧
      ∃ l, (applyRequests ⟨Status.pending, [], 0, none⟩
          [⟨Status.confirmed, none, 1⟩, ⟨Status.completed, none, 2⟩]).history
        = (⟨Status.pending, [], 0, none⟩ : Order).history ++ l) := by
  constructor
  · exact claim_C5.1 ⟨Status.pending, [], 0, none⟩ Status.confirmed none 1
      ⟨Status.confirmed, [⟨Status.pending, Status.confirmed, none, 1⟩], 0, none⟩ rfl
  · refine claim_C5.2 ⟨Status.pending, [], 0, none⟩
      [⟨Status.confirmed, none, 1⟩, ⟨Status.completed, none, 2⟩] rfl rfl ?_
    exact List.Chain.cons (by decide) (List.Chain.cons (by decide) List.Chain.nil)

/-- Claim C6: attachPaymentProof succeeds exactly while the order is
pending, fails with InvalidState in every other status, and on success
records the asset reference and payment method name while leaving the
status, history and creation time unchanged. -/
theorem claim_C6 (o : Order) (assetReference paymentMethodName : String) :
    (o.status = Status.pending →
        attachPaymentProof o assetReference paymentMethodName
          = Except.ok { o with
              paymentProof := some (assetReference, paymentMethodName) }) ∧
    (o.status ≠ Status.pending →
        attachPaymentProof o assetReference paymentMethodName
          = Except.error OrderError.InvalidState) ∧
    (∀ o2, attachPaymentProof o assetReference paymentMethodName = Except.ok o2 →
        o2.status = o.status ∧ o2.history = o.history ∧ o2.createdAt = o.createdAt ∧
        o2.paymentProof = some (assetReference, paymentMethodName)) := by
  refine ⟨?_, ?_, ?_⟩
  · intro hp
    simp [attachPaymentProof, hp]
  · intro hp
    simp [attachPaymentProof, hp]
  · intro o2 hok
    simp only [attachPaymentProof] at hok
    by_cases hp : o.status = Status.pending
    · simp only [hp, if_true, Except.ok.injEq] at hok
      subst hok
      simp [hp]
    · simp [hp] at hok

/-- Witness for claim C6: a fresh pending order accepts the proof and
keeps its status; the same order in confirmed status is rejected with
InvalidState. -/
theorem claim_C6_witness :
    (attachPaymentProof ⟨Status.pending, [], 0, none⟩ ("proof.png") ("eSewa")
        = Except.ok ⟨Status.pending, [], 0, some (("proof.png"), ("eSewa"))⟩) ∧
    (attachPaymentProof ⟨Status.confirmed, [], 0, none⟩ ("proof.png") ("eSewa")
        = Except.error OrderError.InvalidState) := by
  constructor
  · exact (claim_C6 ⟨Status.pending, [], 0, none⟩ ("proof.png") ("eSewa")).1 rfl
  · exact (claim_C6 ⟨Status.confirmed, [], 0, none⟩ ("proof.png") ("eSewa")).2.1
      (by simp)

/-- Claim C7: a promo code's usage count is incremented exactly once per
successful commit and never by validation; a commit never pushes the
count past the limit; and with usage_limit 1 and count 0, two submissions
that both validated beforehand serialize at commit time so that the first
commit succeeds and the second fails with UsageLimitReached. -/
theorem claim_C7 (p : PromoState) :
    (∀ p2, validateUsage p = Except.ok p2 → p2 = p) ∧
    (∀ p2, redeemPromo p = Except.ok p2 →
        p2.usage_count = p.usage_count + 1 ∧ p2.usage_limit = p.usage_limit) ∧
    (∀ lim p2, p.usage_limit = some lim → p.usage_count ≤ lim →
        redeemPromo p = Except.ok p2 → p2.usage_count ≤ lim) ∧
    (p.usage_limit = some 1 → p.usage_count = 0 →
        validateUsage p = Except.ok p ∧
        ∃ p1, redeemPromo p = Except.ok p1 ∧
          redeemPromo p1 = Except.error OrderError.UsageLimitReached) := by
  refine ⟨?_, ?_, ?_, ?_⟩
  · intro p2 hok
    cases hlim : p.usage_limit with
    | none =>
        simp only [validateUsage, hlim, Except.ok.injEq] at hok
        exact hok.symm
    | some lim =>
        simp only [validateUsage, hlim] at hok
        by_cases hlt : p.usage_count < lim
        · simp only [hlt, if_true, Except.ok.injEq] at hok
          exact hok.symm
        · simp [hlt] at hok
  · intro p2 hok
    cases hlim : p.usage_limit with
    | none =>
        simp only [redeemPromo, hlim] at hok
        cases hok
        simp [hlim]
    | some lim =>
        simp only [redeemPromo, hlim] at hok
        by_cases hlt : p.usage_count < lim
        · simp only [hlt, if_true, Except.ok.injEq] at hok
          subst hok
          simp [hlim]
        · simp [hlt] at hok
  · intro lim p2 hlim hle hok
    simp only [redeemPromo, hlim] at hok
    by_cases hlt : p.usage_count < lim
    · simp only [hlt, if_true, Except.ok.injEq] at hok
      subst hok
      simpa using hlt
    · simp [hlt] at hok
  · intro hlim hcount
    refine ⟨by simp [validateUsage, hlim, hcount], ?_⟩
    refine ⟨{ p with usage_count := p.usage_count + 1 }, ?_, ?_⟩
    · simp [redeemPromo, hlim, hcount]
    · simp [redeemPromo, hlim, hcount]

/-- Witness for claim C7 at the concrete state of the scenario: count 0,
limit 1. -/
theorem claim_C7_witness :
    validateUsage ⟨0, some 1⟩ = Except.ok ⟨0, some 1⟩ ∧
    ∃ p1, redeemPromo ⟨0, some 1⟩ = Except.ok p1 ∧
      redeemPromo p1 = Except.error OrderError.UsageLimitReached := by
  exact (claim_C7 ⟨0, some 1⟩).2.2.2 rfl rfl

/-- Claim C8: no operation changes an order's status based on elapsed
time: the subsystem's operations are explicit transitions and proof
attachment only, and applying any sequence of non-transition operations —
whatever wall-clock times elapse around them — leaves the status
untouched, so an unpaid order stays pending indefinitely. -/
theorem claim_C8 (o : Order) (ops : List AdminOp)
    (hnt : ∀ op ∈ ops, isTransitionOp op = false) :
    (applyOps o ops).status = o.status := by
  induction ops generalizing o with
  | nil => rfl
  | cons op rest ih =>
      have hop : isTransitionOp op = false := hnt op (by simp)
      have hstep : (applyOp o op).status = o.status := by
        cases op with
        | transitionTo t n tm => simp [isTransitionOp] at hop
        | attachProof a m =>
            simp only [applyOp, attachPaymentProof]
            by_cases hp : o.status = Status.pending
            · simp [hp]
            · simp [hp]
      calc (applyOps o (op :: rest)).status
          = (applyOps (applyOp o op) rest).status := rfl
        _ = (applyOp o op).status := ih _ (fun x hx => hnt x (by simp [hx]))
        _ = o.status := hstep

/-- Witness for claim C8: a pending order subjected only to a
payment-proof attachment stays pending. -/
theorem claim_C8_witness :
    (applyOps ⟨Status.pending, [], 0, none⟩
        [AdminOp.attachProof ("proof.png") ("eSewa")]).status = Status.pending := by
  exact claim_C8 ⟨Status.pending, [], 0, none⟩
    [AdminOp.attachProof ("proof.png") ("eSewa")] (by simp [isTransitionOp])

theorem screenshot_fold_size_le (events : List (Option ScreenshotFile))
    (cur : Option ScreenshotFile)
    (hcur : ∀ f, cur = some f → f.size ≤ MAX_SCREENSHOT_BYTES) :
    ∀ f, events.foldl handleScreenshotChange cur = some f →
      f.size ≤ MAX_SCREENSHOT_BYTES := by
  induction events generalizing cur with
  | nil => simpa using hcur
  | cons e rest ih =>
      intro f hf
      refine ih (handleScreenshotChange cur e) ?_ f hf
      intro g hg
      cases e with
      | none => exact hcur g hg
      | some x =>
          simp only [handleScreenshotChange] at hg
          by_cases hx : x.size > MAX_SCREENSHOT_BYTES
          · exact hcur g (by simpa [hx] using hg)
          · have : some x = some g := by simpa [hx] using hg
            cases this
            omega

/-- Claim C9: the payment-proof flow never sends a proof without an
asset: with no screenshot selected the submit button is disabled and
handleProcessOrder issues no call, and whenever a call is issued — after
any sequence of file-selection events starting from none — it carries the
asset URL returned by uploading a file of at most 10 MB; the URL is
non-empty provided the asset-storage collaborator returns non-empty
references (spec section 6). -/
theorem claim_C9 (upload : ScreenshotFile → String)
    (hupload : ∀ f, upload f ≠ (""))
    (events : List (Option ScreenshotFile)) (url : String)
    (hcall : handleProcessOrder upload
        (events.foldl handleScreenshotChange none) = some url) :
    (∀ b, processOrderDisabled none b = true) ∧
    handleProcessOrder upload none = none ∧
    url ≠ ("") ∧
    ∃ f, url = upload f ∧ f.size ≤ MAX_SCREENSHOT_BYTES := by
  refine ⟨fun b => rfl, rfl, ?_, ?_⟩
  · cases hscr : events.foldl handleScreenshotChange none with
    | none => simp [handleProcessOrder, hscr] at hcall
    | some f =>
        simp only [handleProcessOrder, hscr, Option.some.injEq] at hcall
        subst hcall
        exact hupload f
  · cases hscr : events.foldl handleScreenshotChange none with
    | none => simp [handleProcessOrder, hscr] at hcall
    | some f =>
        simp only [handleProcessOrder, hscr, Option.some.injEq] at hcall
        subst hcall
        refine ⟨f, rfl, ?_⟩
        exact screenshot_fold_size_le events none (by simp) f hscr

/-- Witness for claim C9: one selection event with a 5-byte file, an
upload service returning the fixed reference url-1. -/
theorem claim_C9_witness :
    (∀ b, processOrderDisabled none b = true) ∧
    handleProcessOrder (fun _ => ("url-1")) none = none ∧
    ("url-1") ≠ ("") ∧
    ∃ f, ("url-1") = (fun (_ : ScreenshotFile) => ("url-1")) f ∧
      f.size ≤ MAX_SCREENSHOT_BYTES := by
  have hne : ∀ f : ScreenshotFile, (fun (_ : ScreenshotFile) => ("url-1")) f ≠ ("") :=
    fun f => by
      show ("url-1") ≠ ("")
      decide
  exact claim_C9 (fun _ => ("url-1")) hne [some ⟨5⟩] ("url-1") rfl

/-- Claim C10: the admin status-update dialog never issues a
self-transition — the confirm button is disabled whenever the chosen
status equals the current one, so an issued request always targets a
different status. -/
theorem claim_C10 (isUpdating : Bool) (s t : Status)
    (henabled : confirmDisabled isUpdating t s = false) : t ≠ s := by
  intro h
  subst h
  simp [confirmDisabled] at henabled

/-- Witness for claim C10: confirming a change to confirmed on a pending
order is enabled, and indeed targets a different status. -/
theorem claim_C10_witness :
    confirmDisabled false Status.pending Status.confirmed = false ∧
    Status.pending ≠ Status.confirmed := by
  have h : confirmDisabled false Status.pending Status.confirmed = false := rfl
  exact ⟨h, claim_C10 false Status.confirmed Status.pending h⟩

end Gangbro
